import Mathlib

/-!
Verification of the Streaming Query Agent client (Cboe Intelligence Hub).

Shallow embedding of the consuming side of the streaming protocol:
  - `ChatInterface.tsx` (`handleSubmit`, the localStorage initial load), and
  - `AgentReasoning.tsx` (`isValidStep`, `validReasoningSteps`).

JavaScript runtime values that the code inspects dynamically (the `step`
payload of a `reasoning_step` frame, optional fields of a message) are
modelled by small inductive types; JSON parsing of a wire frame is modelled
by its outcome (a well-formed frame carrying decoded event data, a frame
whose payload fails to parse, or a line without the expected frame marker).
Byte-to-text decoding is modelled at the character level: `TextDecoder`
with streaming mode makes the decoded character stream independent of the
byte-level read boundaries, so reads are lists of characters here.
-/

namespace Cboe

/-- A JavaScript primitive value, as far as the client inspects one:
`typeof` tags and truthiness are what the validation code branches on. -/
inductive JSVal where
  | vstr (s : String)
  | vnum (n : Int)
  | vbool (b : Bool)
  | vnull
  deriving DecidableEq

/-- JavaScript truthiness of a primitive value: the empty string, the
number 0, `false` and `null` are falsy. -/
def jsTruthy : JSVal → Bool
  | .vstr s => !(s = "")
  | .vnum n => !(n = 0)
  | .vbool b => b
  | .vnull => false

/-- The runtime value handed to `isValidStep` (AgentReasoning.tsx line 80):
`null`/`undefined`, a non-object primitive, or an object with the four
fields the validator and renderer look at (`none` = field absent). -/
inductive StepVal where
  | vnull
  | prim (v : JSVal)
  | obj (type tool input content : Option JSVal)
  deriving DecidableEq

/-- `isValidStep` from AgentReasoning.tsx lines 80-92, literally:
reject when `!step || typeof step !== "object" || !step.type ||
typeof step.type !== "string"`; for `type === "action"` require `tool`
and `input` to be defined; for every other type require `content`. -/
def isValidStep : StepVal → Bool
  | .vnull => false
  | .prim _ => false
  | .obj ty tool input content =>
      match ty with
      | none => false
      | some v =>
          if !(jsTruthy v) then false
          else
            match v with
            | .vstr t =>
                if t = "action" then tool.isSome && input.isSome
                else content.isSome
            | _ => false

/-- `validReasoningSteps` from AgentReasoning.tsx line 95: the rendered
steps are the recorded ones filtered through `isValidStep`. -/
def validReasoningSteps (steps : List StepVal) : List StepVal :=
  steps.filter isValidStep

/-- Amended validity predicate, stated from the corrected claim: a step
passes iff its `type` is a non-empty string, with `tool` and `input`
required for `action` steps and `content` required for every other type
(known or not). -/
def isValidStepAmended : StepVal → Bool
  | .obj (some (.vstr t)) tool input content =>
      !(t = "") &&
        (if t = "action" then tool.isSome && input.isSome else content.isSome)
  | _ => false

/-- A row of query results (`any[][]` on the wire). -/
abbrev Row := List JSVal

/-- The client-side `Message` record (frontend/src/types/index.ts), with
the `columns` field that `handleSubmit` additionally assigns on a
`final_result` frame.  Optional fields are `Option`; `content` is
`Option String` because a `final_result` frame with neither summary nor
answer leaves it undefined at runtime. -/
structure Message where
  id : String
  type : String
  content : Option String
  sqlQuery : Option String
  queryResults : Option (List Row)
  columns : Option (List String)
  reasoningSteps : Option (List StepVal)
  timestamp : Nat
  isStreaming : Option Bool
  deriving DecidableEq

/-- `msg.isStreaming || false` (ChatInterface.tsx line 93): the boolean
the UI derives from the optional field. -/
def streaming (m : Message) : Bool :=
  m.isStreaming.getD false

/-- `msg.content || ""` — the string a possibly-undefined content field
denotes when concatenated. -/
def jsOrStr (o : Option String) : String :=
  match o with
  | some s => s
  | none => ""

/-- `a || b` on two optional strings: `a` unless it is absent or empty. -/
def jsOrOpt (a b : Option String) : Option String :=
  match a with
  | some s => if s = "" then b else some s
  | none => b

/-- The fresh assistant message created before the stream is consumed
(ChatInterface.tsx lines 129-136): empty content, empty step list,
`isStreaming: true`. -/
def freshAssistant (id : String) (ts : Nat) : Message :=
  { id := id, type := "assistant", content := some "", sqlQuery := none,
    queryResults := none, columns := none, reasoningSteps := some [],
    timestamp := ts, isStreaming := some true }

/-- Decoded payload of one well-formed `data:` frame, keyed by its
`type` field (ChatInterface.tsx lines 175-210).  `other` is a frame whose
`type` matches none of the five handled values. -/
inductive EventData where
  | reasoningStep (step : StepVal)
  | chatToken (content : String)
  | chatDone
  | finalResult (summary answer sql_query : Option String)
      (query_results : Option (List Row)) (columns : Option (List String))
  | error (content : String)
  | other
  deriving DecidableEq

/-- The per-message body of the `setMessages(prev => prev.map(...))`
calls in `handleSubmit` (ChatInterface.tsx lines 175-210): update the
message whose id matches the in-flight assistant message, leave every
other message alone.  The `error` frame performs `throw new Error(...)`,
which is caught by the enclosing `catch (parseError)` (line 211) that
only logs — so its net effect on the message state is none; an
unrecognized `type` matches no branch and no update is issued. -/
def updateMsg (aid : String) (d : EventData) (m : Message) : Message :=
  if m.id = aid then
    match d with
    | .reasoningStep s =>
        { m with reasoningSteps := some ((m.reasoningSteps.getD []) ++ [s]) }
    | .chatToken t =>
        { m with content := some (jsOrStr m.content ++ t) }
    | .chatDone =>
        { m with isStreaming := some false }
    | .finalResult su an sq qr c =>
        { m with content := jsOrOpt su an, sqlQuery := sq,
                 queryResults := qr, columns := c, isStreaming := some false }
    | .error _ => m
    | .other => m
  else m

/-- Effect of one decoded frame on the message list.  For the four
handled, non-throwing frame types the code maps `updateMsg` over the
list; for an `error` frame the thrown exception is swallowed by the
inner catch before any `setMessages` call, and for an unknown `type`
no branch runs, so the list is unchanged in both cases. -/
def applyData (msgs : List Message) (aid : String) (d : EventData) :
    List Message :=
  match d with
  | .error _ => msgs
  | .other => msgs
  | _ => msgs.map (updateMsg aid d)

/-- The outer `catch` of `handleSubmit` (ChatInterface.tsx lines
223-231): attach a human-readable error to the in-flight assistant
message and end its streaming state.  Reachable only from fetch/reader
failures — not from an `error` frame, whose throw the inner catch
swallows first. -/
def applyCatch (aid : String) (errMsg : String) (msgs : List Message) :
    List Message :=
  msgs.map fun m =>
    if m.id = aid then
      { m with content := some ("Sorry, I encountered an error: " ++ errMsg),
               isStreaming := some false }
    else m

/-- Outcome of examining one complete line of the stream
(ChatInterface.tsx lines 170-173): a line carrying the `data:` marker
whose JSON payload parses to event data, a marked line whose payload
fails `JSON.parse`, or a line without the marker (skipped outright). -/
inductive Line where
  | frame (d : EventData)
  | badFrame
  | notData
  deriving DecidableEq

/-- Effect of one line on the message list: a well-formed frame applies
its event data; a malformed payload is caught and logged (line 211-213)
leaving state untouched; a line without the marker is skipped. -/
def applyLine (aid : String) (msgs : List Message) (l : Line) :
    List Message :=
  match l with
  | .frame d => applyData msgs aid d
  | .badFrame => msgs
  | .notData => msgs

/-- Whether processing this line executes the `break` of the
`final_result` branch (ChatInterface.tsx line 207), exiting the
per-read `for` loop early. -/
def isTerminalLine : Line → Bool
  | .frame (.finalResult _ _ _ _ _) => true
  | _ => false

/-- The `for (const line of lines)` loop over one read's complete lines
(ChatInterface.tsx lines 170-215), including the `break` after a
`final_result` frame: the remaining lines of this read are skipped. -/
def processChunk (aid : String) (msgs : List Message) :
    List Line → List Message
  | [] => msgs
  | l :: rest =>
      if isTerminalLine l then applyLine aid msgs l
      else processChunk aid (applyLine aid msgs l) rest

/-- The `while (true)` read loop (ChatInterface.tsx lines 162-216):
each network read contributes one batch of complete lines, processed in
order.  The `break` after `final_result` only exits the inner `for`, so
later reads are still processed. -/
def processStream (aid : String) (msgs : List Message)
    (chunks : List (List Line)) : List Message :=
  chunks.foldl (processChunk aid) msgs

/-- `buffer.split("\x7bnewline\x7d")` at the character level
(ChatInterface.tsx line 167): split a character sequence on the newline
character; like the JavaScript `split`, the result is never empty and an
input without newlines yields a single segment equal to the input. -/
def consHead (c : Char) : List (List Char) → List (List Char)
  | [] => [[c]]
  | l :: ls => (c :: l) :: ls

/-- See `consHead`: the recursive splitter itself. -/
def splitNL : List Char → List (List Char)
  | [] => [[]]
  | c :: cs => if c = '\n' then [] :: splitNL cs else consHead c (splitNL cs)

/-- Last element of a list, with a default for the empty list — the
value of `lines.pop() || ""` once the split is known to be non-empty. -/
def lastD {α : Type} : List α → α → α
  | [], d => d
  | [x], _ => x
  | _ :: x :: xs, d => lastD (x :: xs) d

/-- One iteration of the read loop's buffering (ChatInterface.tsx lines
166-168): append the newly decoded characters to the carried buffer,
split on newline, keep the trailing segment (`lines.pop() || ""`) as the
new buffer, and hand the complete lines to the frame loop. -/
def feed (buffer chunk : List Char) : List (List Char) × List Char :=
  let lines := splitNL (buffer ++ chunk)
  (lines.dropLast, lastD lines [])

/-- One network read folded into the accumulated processed lines and the
carried buffer. -/
def feedStep (st : List (List Char) × List Char) (chunk : List Char) :
    List (List Char) × List Char :=
  let r := feed st.2 chunk
  (st.1 ++ r.1, r.2)

/-- Buffering across a whole sequence of network reads, starting from an
empty buffer: the ordered list of complete lines processed over all
reads, together with the final leftover buffer. -/
def feedAll (chunks : List (List Char)) : List (List Char) × List Char :=
  chunks.foldl feedStep ([], [])

/-- Prepends a segment to the head of a segment list, used to describe
how splitting distributes over appending character streams. -/
def glue (x : List Char) : List (List Char) → List (List Char)
  | [] => [x]
  | y :: ys => (x ++ y) :: ys

/-- Append of two split results: the last segment of the first stream
merges with the first segment of the second. -/
def glueAll : List (List Char) → List (List Char) → List (List Char)
  | [], ys => ys
  | [x], ys => glue x ys
  | x :: xs, ys => x :: glueAll xs ys

/-- Outcome of reading and parsing the persisted chat history at mount
(ChatInterface.tsx lines 17-37): `localStorage.getItem` returned
nothing, or a string that parses (and maps) to a message list, or a
string on which `JSON.parse` (or the subsequent map) throws. -/
inductive StoredHistory where
  | absent
  | valid (msgs : List Message)
  | corrupt
  deriving DecidableEq

/-- State after the mount effect: the loaded message list, the storage
content left behind, and the `initialLoadComplete` flag. -/
structure LoadResult where
  messages : List Message
  stored : StoredHistory
  initialLoadComplete : Bool
  deriving DecidableEq

/-- The mount effect of ChatInterface.tsx lines 17-37: a valid persisted
history is loaded (timestamps revived in place); a corrupt one is caught,
logged and removed, leaving the empty initial list; in every case
`setInitialLoadComplete(true)` runs. -/
def initialLoad : StoredHistory → LoadResult
  | .absent => ⟨[], .absent, true⟩
  | .valid msgs => ⟨msgs, .valid msgs, true⟩
  | .corrupt => ⟨[], .absent, true⟩

/-- The effect of one line on a single message: how `updateMsg` reaches
each list element through the `prev.map` calls. -/
def lineUpd (aid : String) (l : Line) (m : Message) : Message :=
  match l with
  | .frame d => updateMsg aid d m
  | .badFrame => m
  | .notData => m

/-- The effect of one read's line batch on a single message, with the
same early exit after a `final_result` frame as `processChunk`. -/
def chunkUpd (aid : String) : List Line → Message → Message
  | [], m => m
  | l :: rest, m =>
      if isTerminalLine l then lineUpd aid l m
      else chunkUpd aid rest (lineUpd aid l m)

/-- The effect of the whole read loop on a single message. -/
def streamUpd (aid : String) (chunks : List (List Line)) (m : Message) :
    Message :=
  chunks.foldl (fun m c => chunkUpd aid c m) m

/-- Whether a line batch contains a `final_result` frame. -/
def hasTerminal : List Line → Bool
  | [] => false
  | l :: ls => isTerminalLine l || hasTerminal ls

/-- A `final_result` frame, if present, is the last line — the stream
invariant that no event follows the terminal event. -/
def noAfterTerminal : List Line → Bool
  | [] => true
  | l :: ls => if isTerminalLine l then ls.isEmpty else noAfterTerminal ls

/-! ### Properties of the newline splitter -/

theorem splitNL_ne_nil (s : List Char) : splitNL s ≠ [] := by
  induction s with
  | nil => simp [splitNL]
  | cons c cs ih =>
      simp only [splitNL]
      split
      · simp
      · cases h : splitNL cs with
        | nil => simp [consHead]
        | cons l ls => simp [consHead]

theorem glue_ne_nil (x : List Char) (ys : List (List Char)) :
    glue x ys ≠ [] := by
  cases ys <;> simp [glue]

theorem glue_nil_of_ne (ys : List (List Char)) (h : ys ≠ []) :
    glue [] ys = ys := by
  cases ys with
  | nil => exact absurd rfl h
  | cons y ys => simp [glue]

theorem glueAll_cons_ne (x : List Char) (r ys : List (List Char))
    (h : r ≠ []) : glueAll (x :: r) ys = x :: glueAll r ys := by
  cases r with
  | nil => exact absurd rfl h
  | cons a as => rfl

theorem glueAll_ne_nil (r ys : List (List Char)) (hys : ys ≠ []) :
    glueAll r ys ≠ [] := by
  cases r with
  | nil => simpa [glueAll]
  | cons x xs =>
      cases xs with
      | nil => simpa [glueAll] using glue_ne_nil x ys
      | cons x2 xs2 => simp [glueAll]

theorem consHead_glueAll (c : Char) (r ys : List (List Char))
    (hr : r ≠ []) (hys : ys ≠ []) :
    consHead c (glueAll r ys) = glueAll (consHead c r) ys := by
  cases r with
  | nil => exact absurd rfl hr
  | cons x xs =>
      cases xs with
      | nil =>
          cases ys with
          | nil => exact absurd rfl hys
          | cons y ys2 => simp [glueAll, glue, consHead]
      | cons x2 xs2 =>
          rw [glueAll_cons_ne x (x2 :: xs2) ys (by simp)]
          simp only [consHead]
          rw [glueAll_cons_ne (c :: x) (x2 :: xs2) ys (by simp)]

theorem splitNL_append (a b : List Char) :
    splitNL (a ++ b) = glueAll (splitNL a) (splitNL b) := by
  induction a with
  | nil =>
      simp only [List.nil_append, splitNL, glueAll]
      rw [glue_nil_of_ne _ (splitNL_ne_nil b)]
  | cons c cs ih =>
      simp only [List.cons_append, splitNL, List.append_eq]
      by_cases h : c = '\n'
      · rw [if_pos h, if_pos h, ih,
            glueAll_cons_ne [] (splitNL cs) _ (splitNL_ne_nil cs)]
      · rw [if_neg h, if_neg h, ih,
            consHead_glueAll c _ _ (splitNL_ne_nil cs) (splitNL_ne_nil b)]

theorem mem_splitNL_no_nl (s : List Char) :
    ∀ l ∈ splitNL s, '\n' ∉ l := by
  induction s with
  | nil =>
      intro l hl
      simp [splitNL] at hl
      simp [hl]
  | cons c cs ih =>
      intro l hl
      by_cases h : c = '\n'
      · rw [splitNL, if_pos h] at hl
        rcases List.mem_cons.mp hl with h1 | h1
        · simp [h1]
        · exact ih l h1
      · rw [splitNL, if_neg h] at hl
        cases hsp : splitNL cs with
        | nil => exact absurd hsp (splitNL_ne_nil cs)
        | cons x xs =>
            rw [hsp] at hl
            simp only [consHead] at hl
            rcases List.mem_cons.mp hl with h1 | h1
            · subst h1
              intro hm
              rcases List.mem_cons.mp hm with h2 | h2
              · exact h h2.symm
              · exact (ih x (by rw [hsp]; exact List.mem_cons_self x xs)) h2
            · exact ih l (by rw [hsp]; exact List.mem_cons_of_mem x h1)

theorem splitNL_no_nl (s : List Char) (h : '\n' ∉ s) : splitNL s = [s] := by
  induction s with
  | nil => rfl
  | cons c cs ih =>
      simp only [List.mem_cons, not_or] at h
      rw [splitNL, if_neg (fun e => h.1 e.symm), ih h.2]
      rfl

theorem lastD_mem {α : Type} (xs : List α) (d : α) (h : xs ≠ []) :
    lastD xs d ∈ xs := by
  induction xs with
  | nil => exact absurd rfl h
  | cons x xs ih =>
      cases xs with
      | nil => simp [lastD]
      | cons y ys =>
          rw [lastD]
          exact List.mem_cons_of_mem x (ih (by simp))

theorem lastD_cons_cons {α : Type} (x y : α) (ys : List α) (d : α) :
    lastD (x :: y :: ys) d = lastD (y :: ys) d := rfl

theorem dropLast_glueAll (r ys : List (List Char)) (hr : r ≠ [])
    (hys : ys ≠ []) :
    (glueAll r ys).dropLast = r.dropLast ++ (glue (lastD r []) ys).dropLast := by
  induction r with
  | nil => exact absurd rfl hr
  | cons x xs ih =>
      cases xs with
      | nil => simp [glueAll, lastD]
      | cons x2 xs2 =>
          rw [glueAll_cons_ne x (x2 :: xs2) ys (by simp)]
          obtain ⟨z, zs, hz⟩ :=
            List.exists_cons_of_ne_nil (glueAll_ne_nil (x2 :: xs2) ys hys)
          rw [hz, lastD_cons_cons]
          have base := ih (by simp)
          rw [hz] at base
          calc (x :: z :: zs).dropLast
              = x :: (z :: zs).dropLast := rfl
            _ = x :: ((x2 :: xs2).dropLast ++
                  (glue (lastD (x2 :: xs2) []) ys).dropLast) := by rw [base]
            _ = (x :: x2 :: xs2).dropLast ++
                  (glue (lastD (x2 :: xs2) []) ys).dropLast := by
                  simp [List.dropLast]

theorem lastD_glueAll (r ys : List (List Char)) (hr : r ≠ [])
    (hys : ys ≠ []) :
    lastD (glueAll r ys) [] = lastD (glue (lastD r []) ys) [] := by
  induction r with
  | nil => exact absurd rfl hr
  | cons x xs ih =>
      cases xs with
      | nil => simp [glueAll, lastD]
      | cons x2 xs2 =>
          rw [glueAll_cons_ne x (x2 :: xs2) ys (by simp)]
          obtain ⟨z, zs, hz⟩ :=
            List.exists_cons_of_ne_nil (glueAll_ne_nil (x2 :: xs2) ys hys)
          rw [hz, lastD_cons_cons, lastD_cons_cons, ← hz, ih (by simp)]

theorem feedStep_foldl (chunks : List (List Char)) :
    ∀ (acc : List (List Char)) (buf : List Char), '\n' ∉ buf →
      chunks.foldl feedStep (acc, buf) =
        (acc ++ (splitNL (buf ++ chunks.flatten)).dropLast,
         lastD (splitNL (buf ++ chunks.flatten)) []) := by
  induction chunks with
  | nil =>
      intro acc buf h
      simp [List.foldl, splitNL_no_nl buf h, lastD]
  | cons ch rest ih =>
      intro acc buf hbuf
      rw [List.foldl_cons]
      have hbuf2 : '\n' ∉ lastD (splitNL (buf ++ ch)) [] :=
        mem_splitNL_no_nl (buf ++ ch) _ (lastD_mem _ _ (splitNL_ne_nil _))
      have hstep : feedStep (acc, buf) ch =
          (acc ++ (splitNL (buf ++ ch)).dropLast,
           lastD (splitNL (buf ++ ch)) []) := rfl
      rw [hstep, ih _ _ hbuf2]
      have key : splitNL (lastD (splitNL (buf ++ ch)) [] ++ rest.flatten) =
          glue (lastD (splitNL (buf ++ ch)) []) (splitNL rest.flatten) := by
        rw [splitNL_append, splitNL_no_nl _ hbuf2]
        rfl
      have main : splitNL (buf ++ (ch :: rest).flatten) =
          glueAll (splitNL (buf ++ ch)) (splitNL rest.flatten) := by
        rw [List.flatten_cons, ← List.append_assoc, splitNL_append]
      rw [key, main,
          dropLast_glueAll _ _ (splitNL_ne_nil _) (splitNL_ne_nil _),
          lastD_glueAll _ _ (splitNL_ne_nil _) (splitNL_ne_nil _),
          List.append_assoc]

/-! ### The reconciler acts on each message independently -/

theorem updateMsg_error (aid : String) (e : String) (m : Message) :
    updateMsg aid (.error e) m = m := by
  simp [updateMsg]

theorem updateMsg_other (aid : String) (m : Message) :
    updateMsg aid .other m = m := by
  simp [updateMsg]

theorem map_self {α : Type} (f : α → α) (h : ∀ x, f x = x) :
    ∀ l : List α, l.map f = l := by
  intro l
  induction l with
  | nil => rfl
  | cons x xs ih => simp [h, ih]

theorem applyData_eq_map (msgs : List Message) (aid : String)
    (d : EventData) : applyData msgs aid d = msgs.map (updateMsg aid d) := by
  cases d with
  | error e => exact (map_self _ (updateMsg_error aid e) msgs).symm
  | other => exact (map_self _ (updateMsg_other aid) msgs).symm
  | reasoningStep s => rfl
  | chatToken t => rfl
  | chatDone => rfl
  | finalResult su an sq qr c => rfl

theorem applyLine_eq_map (aid : String) (msgs : List Message) (l : Line) :
    applyLine aid msgs l = msgs.map (lineUpd aid l) := by
  cases l with
  | frame d =>
      have h1 : applyLine aid msgs (.frame d) = applyData msgs aid d := rfl
      rw [h1, applyData_eq_map]
      exact List.map_congr_left fun m _ => rfl
  | badFrame => exact (map_self _ (fun m => rfl) msgs).symm
  | notData => exact (map_self _ (fun m => rfl) msgs).symm

theorem processChunk_eq_map (aid : String) (c : List Line) :
    ∀ msgs, processChunk aid msgs c = msgs.map (chunkUpd aid c) := by
  induction c with
  | nil => intro msgs; simp [processChunk, chunkUpd]
  | cons l rest ih =>
      intro msgs
      by_cases h : isTerminalLine l
      · simp [processChunk, chunkUpd, h, applyLine_eq_map]
      · rw [processChunk, if_neg (by simp [h]), ih, applyLine_eq_map,
            List.map_map]
        refine List.map_congr_left fun m _ => ?_
        simp [chunkUpd, h]

theorem processStream_eq_map (aid : String) (chunks : List (List Line)) :
    ∀ msgs, processStream aid msgs chunks = msgs.map (streamUpd aid chunks) := by
  induction chunks with
  | nil => intro msgs; exact (map_self _ (fun m => rfl) msgs).symm
  | cons c rest ih =>
      intro msgs
      have h1 : processStream aid msgs (c :: rest) =
          processStream aid (processChunk aid msgs c) rest := rfl
      rw [h1, ih, processChunk_eq_map, List.map_map]
      rfl

/-! ### Streaming is monotone: once ended it never restarts -/

theorem streaming_updateMsg (aid : String) (d : EventData) (m : Message)
    (h : streaming m = false) : streaming (updateMsg aid d m) = false := by
  unfold updateMsg
  split
  · cases d <;> simp_all [streaming]
  · exact h

theorem streaming_lineUpd (aid : String) (l : Line) (m : Message)
    (h : streaming m = false) : streaming (lineUpd aid l m) = false := by
  cases l with
  | frame d => exact streaming_updateMsg aid d m h
  | badFrame => exact h
  | notData => exact h

theorem streaming_chunkUpd (aid : String) (c : List Line) :
    ∀ m, streaming m = false → streaming (chunkUpd aid c m) = false := by
  induction c with
  | nil => intro m h; exact h
  | cons l rest ih =>
      intro m h
      by_cases ht : isTerminalLine l
      · rw [chunkUpd, if_pos (by simp [ht])]
        exact streaming_lineUpd aid l m h
      · rw [chunkUpd, if_neg (by simp [ht])]
        exact ih _ (streaming_lineUpd aid l m h)

theorem streaming_streamUpd (aid : String) (chunks : List (List Line)) :
    ∀ m, streaming m = false → streaming (streamUpd aid chunks m) = false := by
  induction chunks with
  | nil => intro m h; exact h
  | cons c rest ih =>
      intro m h
      exact ih _ (streaming_chunkUpd aid c m h)

/-! ### Skippable lines leave a batch's outcome unchanged -/

theorem processChunk_skip (aid : String) (l : Line)
    (hid : ∀ msgs, applyLine aid msgs l = msgs)
    (ht : isTerminalLine l = false) :
    ∀ (pre post : List Line) (msgs : List Message),
      processChunk aid msgs (pre ++ l :: post) =
        processChunk aid msgs (pre ++ post) := by
  intro pre
  induction pre with
  | nil =>
      intro post msgs
      simp only [List.nil_append]
      rw [processChunk, if_neg (by simp [ht]), hid]
  | cons p pre ih =>
      intro post msgs
      by_cases hp : isTerminalLine p
      · simp [processChunk, hp]
      · simp only [List.cons_append]
        rw [processChunk, if_neg (by simp [hp]),
            processChunk, if_neg (by simp [hp]), ih]

/-! ### Conforming streams: chunk boundaries do not matter -/

theorem processChunk_eq_foldl (aid : String) (c : List Line) :
    ∀ msgs, noAfterTerminal c = true →
      processChunk aid msgs c = c.foldl (applyLine aid) msgs := by
  induction c with
  | nil => intro msgs _; rfl
  | cons l rest ih =>
      intro msgs h
      by_cases ht : isTerminalLine l
      · have hr : rest = [] := by
          have : rest.isEmpty = true := by
            simpa [noAfterTerminal, ht] using h
          simpa using this
        subst hr
        rw [processChunk, if_pos (by simp [ht])]
        rfl
      · have h2 : noAfterTerminal rest = true := by
          simpa [noAfterTerminal, ht] using h
        rw [processChunk, if_neg (by simp [ht]), ih _ h2, List.foldl_cons]

theorem noAfterTerminal_append_left (a b : List Line)
    (h : noAfterTerminal (a ++ b) = true) : noAfterTerminal a = true := by
  induction a with
  | nil => rfl
  | cons l a ih =>
      by_cases ht : isTerminalLine l
      · have he : a ++ b = [] := by
          have : (a ++ b).isEmpty = true := by
            simpa [noAfterTerminal, ht] using h
          simpa using this
        have ha : a = [] := (List.append_eq_nil.mp he).1
        subst ha
        simp [noAfterTerminal, ht, List.isEmpty]
      · have h2 : noAfterTerminal (a ++ b) = true := by
          simpa [noAfterTerminal, ht] using h
        rw [noAfterTerminal, if_neg (by simp [ht])]
        exact ih h2

theorem terminal_forces_nil (a b : List Line)
    (h : noAfterTerminal (a ++ b) = true) (ht : hasTerminal a = true) :
    b = [] := by
  induction a with
  | nil => simp [hasTerminal] at ht
  | cons l a ih =>
      by_cases hl : isTerminalLine l
      · have he : a ++ b = [] := by
          have : (a ++ b).isEmpty = true := by
            simpa [noAfterTerminal, hl] using h
          simpa using this
        exact (List.append_eq_nil.mp he).2
      · have h1 : noAfterTerminal (a ++ b) = true := by
          simpa [noAfterTerminal, hl] using h
        have h2 : hasTerminal a = true := by
          simpa [hasTerminal, hl] using ht
        exact ih h1 h2

theorem noAfterTerminal_append_right (a b : List Line)
    (h : noAfterTerminal (a ++ b) = true) (ht : hasTerminal a = false) :
    noAfterTerminal b = true := by
  induction a with
  | nil => exact h
  | cons l a ih =>
      simp only [hasTerminal, Bool.or_eq_false_iff] at ht
      have h1 : noAfterTerminal (a ++ b) = true := by
        simpa [noAfterTerminal, ht.1] using h
      exact ih h1 ht.2

theorem processStream_flatten_nil (aid : String) (lss : List (List Line))
    (h : lss.flatten = []) : ∀ msgs, processStream aid msgs lss = msgs := by
  induction lss with
  | nil => intro msgs; rfl
  | cons c rest ih =>
      intro msgs
      rw [List.flatten_cons] at h
      obtain ⟨hc, hr⟩ := List.append_eq_nil.mp h
      subst hc
      exact ih hr msgs

theorem processStream_eq_foldl (aid : String) (lss : List (List Line)) :
    ∀ msgs, noAfterTerminal lss.flatten = true →
      processStream aid msgs lss = lss.flatten.foldl (applyLine aid) msgs := by
  induction lss with
  | nil => intro msgs _; rfl
  | cons c rest ih =>
      intro msgs h
      rw [List.flatten_cons] at h ⊢
      have hc : noAfterTerminal c = true := noAfterTerminal_append_left _ _ h
      have step : processChunk aid msgs c = c.foldl (applyLine aid) msgs :=
        processChunk_eq_foldl aid c msgs hc
      have h1 : processStream aid msgs (c :: rest) =
          processStream aid (processChunk aid msgs c) rest := rfl
      by_cases htc : hasTerminal c = true
      · have hb : rest.flatten = [] := terminal_forces_nil _ _ h htc
        rw [h1, processStream_flatten_nil aid rest hb, step, hb,
            List.append_nil]
      · have hr : noAfterTerminal rest.flatten = true :=
          noAfterTerminal_append_right _ _ h (by simpa using htc)
        rw [h1, ih _ hr, step, List.foldl_append]

theorem isValidStep_eq_amended (s : StepVal) :
    isValidStep s = isValidStepAmended s := by
  cases s with
  | vnull => rfl
  | prim v => rfl
  | obj ty tool input content =>
      cases ty with
      | none => rfl
      | some v =>
          cases v with
          | vstr t =>
              by_cases h : t = "" <;>
                simp [isValidStep, isValidStepAmended, jsTruthy, h]
          | vnum n =>
              by_cases h : n = 0 <;>
                simp [isValidStep, isValidStepAmended, jsTruthy, h]
          | vbool b => cases b <;> rfl
          | vnull => rfl

/-! ### The claims -/

/-- Claim C1.  The claim states that an `error` frame mid-stream leaves
the assistant message with `is_streaming = false` and content carrying
the failure text.  The code does the opposite: the `throw` in the
`error` branch is intercepted by the inner `catch (parseError)` that was
written for `JSON.parse` failures, so the frame is merely logged.
Evaluating the reconciler on a stream holding exactly the frame
`data: \x7b"type":"error","content":"tool timeout"\x7d` returns the fresh
assistant message unchanged — still streaming, content empty. -/
theorem c1_error_frame_leaves_message_streaming :
    processStream "1" [freshAssistant "1" 0]
        [[Line.frame (.error "tool timeout")]] = [freshAssistant "1" 0] ∧
    streaming (freshAssistant "1" 0) = true ∧
    (freshAssistant "1" 0).content = some "" :=
  ⟨rfl, rfl, rfl⟩

/-- Claim C2, counterexample.  `chat_done` is not a terminal event
(`isTerminalLine` is false for it: it does not end the stream), yet
applying it to a streaming message sets `is_streaming` to false,
refuting "no non-terminal event sets it false". -/
theorem c2_chat_done_clears_streaming_counterexample :
    streaming (freshAssistant "1" 0) = true ∧
    isTerminalLine (Line.frame .chatDone) = false ∧
    streaming (updateMsg "1" .chatDone (freshAssistant "1" 0)) = false := by
  decide

/-- Claim C2, amended.  For a message matching the in-flight id:
`reasoning_step`, `chat_token`, unrecognized frames and `error` frames
leave `is_streaming` unchanged; `chat_done` — although non-terminal —
and `final_result` each set it to false.  No event ever sets it back to
true. -/
theorem c2_streaming_event_transitions (m : Message) (aid : String)
    (s : StepVal) (t : String) (su an sq : Option String)
    (qr : Option (List Row)) (c : Option (List String)) (e : String)
    (h : m.id = aid) :
    streaming (updateMsg aid (.reasoningStep s) m) = streaming m ∧
    streaming (updateMsg aid (.chatToken t) m) = streaming m ∧
    streaming (updateMsg aid .chatDone m) = false ∧
    streaming (updateMsg aid (.finalResult su an sq qr c) m) = false ∧
    streaming (updateMsg aid .other m) = streaming m ∧
    streaming (updateMsg aid (.error e) m) = streaming m := by
  refine ⟨?_, ?_, ?_, ?_, ?_, ?_⟩ <;> simp [updateMsg, h, streaming]

/-- Witness for C2 at a concrete message and one concrete event of each
kind. -/
theorem c2_streaming_event_transitions_witness :
    streaming (updateMsg "1" (.reasoningStep .vnull) (freshAssistant "1" 0)) =
        streaming (freshAssistant "1" 0) ∧
    streaming (updateMsg "1" (.chatToken "tok") (freshAssistant "1" 0)) =
        streaming (freshAssistant "1" 0) ∧
    streaming (updateMsg "1" .chatDone (freshAssistant "1" 0)) = false ∧
    streaming (updateMsg "1"
        (.finalResult (some "s") none none none none)
        (freshAssistant "1" 0)) = false ∧
    streaming (updateMsg "1" .other (freshAssistant "1" 0)) =
        streaming (freshAssistant "1" 0) ∧
    streaming (updateMsg "1" (.error "err") (freshAssistant "1" 0)) =
        streaming (freshAssistant "1" 0) :=
  c2_streaming_event_transitions (freshAssistant "1" 0) "1" .vnull "tok"
    (some "s") none none none none "err" rfl

/-- Claim C3, counterexample.  A step whose kind is "banana" — not one
of thought, action, observation — but which carries a content field is
accepted by `isValidStep` and survives the filter, refuting "unrecognized
kinds must be rejected". -/
theorem c3_unknown_kind_accepted_counterexample :
    isValidStep (.obj (some (.vstr "banana")) none none
        (some (.vstr "note"))) = true ∧
    validReasoningSteps [.obj (some (.vstr "banana")) none none
        (some (.vstr "note"))] =
      [.obj (some (.vstr "banana")) none none (some (.vstr "note"))] ∧
    "banana" ≠ "thought" ∧ "banana" ≠ "action" ∧
    "banana" ≠ "observation" := by
  decide

/-- Claim C3, amended.  The validity filter keeps exactly the steps
whose kind is a non-empty string with the kind-specific required fields
(tool and input for action; content for every other kind, recognized or
not): the rendered list is the filter of the amended predicate. -/
theorem c3_validity_characterization (steps : List StepVal) :
    validReasoningSteps steps = steps.filter isValidStepAmended := by
  unfold validReasoningSteps
  exact List.filter_congr fun s _ => isValidStep_eq_amended s

/-- Claim C4.  A frame whose payload is not valid JSON is skipped by the
line loop: deleting it from a batch does not change the resulting
message state, so previously applied events are untouched and all
subsequent valid frames are applied normally. -/
theorem c4_malformed_frame_skipped (aid : String) (pre post : List Line)
    (msgs : List Message) :
    processChunk aid msgs (pre ++ Line.badFrame :: post) =
      processChunk aid msgs (pre ++ post) :=
  processChunk_skip aid Line.badFrame (fun _ => rfl) rfl pre post msgs

/-- Claim C5.  The read-loop buffering processes exactly the complete
lines of the accumulated stream, in order, and carries the trailing
partial line in the buffer; consequently any two partitions of the same
character stream into network reads produce the same processed lines
and the same final buffer. -/
theorem c5_buffering_partition_independent (cs cs2 : List (List Char))
    (h : cs.flatten = cs2.flatten) :
    feedAll cs =
      ((splitNL cs.flatten).dropLast, lastD (splitNL cs.flatten) []) ∧
    feedAll cs = feedAll cs2 := by
  have h1 := feedStep_foldl cs [] [] (by simp)
  have h2 := feedStep_foldl cs2 [] [] (by simp)
  simp only [List.nil_append] at h1 h2
  refine ⟨h1, ?_⟩
  rw [feedAll, feedAll, h1, h2, h]

/-- Witness for C5: the stream "ab" newline "c" delivered as two
different read partitions. -/
theorem c5_buffering_witness :
    feedAll [['a'], ['b', '\n', 'c']] =
      ((splitNL ([['a'], ['b', '\n', 'c']] : List (List Char)).flatten).dropLast,
       lastD (splitNL ([['a'], ['b', '\n', 'c']] : List (List Char)).flatten) []) ∧
    feedAll [['a'], ['b', '\n', 'c']] = feedAll [['a', 'b', '\n'], ['c']] :=
  c5_buffering_partition_independent [['a'], ['b', '\n', 'c']]
    [['a', 'b', '\n'], ['c']] (by decide)

/-- Claim C6, counterexample.  A `final_result` frame whose summary is
the empty string does not overwrite content with the summary: the code
computes `data.summary || data.answer`, so content becomes the answer
field instead. -/
theorem c6_summary_fallback_counterexample :
    (updateMsg "1"
        (.finalResult (some "") (some "Result is 1") none none none)
        (freshAssistant "1" 0)).content = some "Result is 1" ∧
    (some "Result is 1" : Option String) ≠ (some "" : Option String) := by
  decide

/-- Claim C6, amended.  Applying `final_result` to the in-flight message
overwrites content with the summary when the summary is a non-empty
string, falling back to the answer field when the summary is empty or
absent; the generated query, result rows and columns are set from the
event (the query staying absent when the event carries none), and
`is_streaming` becomes false. -/
theorem c6_final_result_fields (m : Message) (aid : String) (s : String)
    (an sq : Option String) (qr : Option (List Row))
    (c : Option (List String)) (hid : m.id = aid) (hs : s ≠ "") :
    (updateMsg aid (.finalResult (some s) an sq qr c) m).content = some s ∧
    (updateMsg aid (.finalResult (some "") an sq qr c) m).content = an ∧
    (updateMsg aid (.finalResult none an sq qr c) m).content = an ∧
    (updateMsg aid (.finalResult (some s) an sq qr c) m).sqlQuery = sq ∧
    (updateMsg aid (.finalResult (some s) an sq qr c) m).queryResults = qr ∧
    (updateMsg aid (.finalResult (some s) an sq qr c) m).columns = c ∧
    streaming (updateMsg aid (.finalResult (some s) an sq qr c) m) = false := by
  refine ⟨?_, ?_, ?_, ?_, ?_, ?_, ?_⟩ <;>
    simp [updateMsg, hid, jsOrOpt, hs, streaming]

/-- Witness for C6 on the scenario-A shaped result. -/
theorem c6_final_result_fields_witness :
    (updateMsg "1"
        (.finalResult (some "Result is 1") none none none none)
        (freshAssistant "1" 0)).content = some "Result is 1" ∧
    (updateMsg "1" (.finalResult (some "") none none none none)
        (freshAssistant "1" 0)).content = none ∧
    (updateMsg "1" (.finalResult none none none none none)
        (freshAssistant "1" 0)).content = none ∧
    (updateMsg "1" (.finalResult (some "Result is 1") none none none none)
        (freshAssistant "1" 0)).sqlQuery = none ∧
    (updateMsg "1" (.finalResult (some "Result is 1") none none none none)
        (freshAssistant "1" 0)).queryResults = none ∧
    (updateMsg "1" (.finalResult (some "Result is 1") none none none none)
        (freshAssistant "1" 0)).columns = none ∧
    streaming (updateMsg "1"
        (.finalResult (some "Result is 1") none none none none)
        (freshAssistant "1" 0)) = false :=
  c6_final_result_fields (freshAssistant "1" 0) "1" "Result is 1"
    none none none none rfl (by decide)

/-- Claim C7.  `is_streaming` is monotone true-to-false: event
application acts on each message of the list independently, and once a
message is no longer streaming, no further processed stream of events
makes it stream again. -/
theorem c7_streaming_monotone (aid : String) (m : Message)
    (msgs : List Message) (chunks : List (List Line))
    (h : streaming m = false) :
    streaming (streamUpd aid chunks m) = false ∧
    processStream aid msgs chunks = msgs.map (streamUpd aid chunks) :=
  ⟨streaming_streamUpd aid chunks m h, processStream_eq_map aid chunks msgs⟩

/-- Witness for C7 on a finished message fed one more token frame. -/
theorem c7_streaming_monotone_witness :
    streaming (streamUpd "1" [[Line.frame (.chatToken "x")]]
      { freshAssistant "1" 0 with isStreaming := some false }) = false ∧
    processStream "1" [freshAssistant "1" 0]
        [[Line.frame (.chatToken "x")]] =
      [freshAssistant "1" 0].map
        (streamUpd "1" [[Line.frame (.chatToken "x")]]) :=
  c7_streaming_monotone "1"
    { freshAssistant "1" 0 with isStreaming := some false }
    [freshAssistant "1" 0] [[Line.frame (.chatToken "x")]] (by decide)

/-- Claim C8.  Replaying the same ordered line sequence into a fresh
reconciler yields identical message state: for a conforming stream
(no line after the terminal `final_result`), the final state depends
only on the flattened line sequence, not on how reads partition it, so
two replays of the same events agree. -/
theorem c8_replay_deterministic (aid : String) (msgs : List Message)
    (lss1 lss2 : List (List Line)) (hj : lss1.flatten = lss2.flatten)
    (hw : noAfterTerminal lss1.flatten = true) :
    processStream aid msgs lss1 = processStream aid msgs lss2 := by
  rw [processStream_eq_foldl aid lss1 msgs hw,
      processStream_eq_foldl aid lss2 msgs (by rw [← hj]; exact hw), hj]

/-- Witness for C8: one token and one completion frame, replayed as two
reads and as one read. -/
theorem c8_replay_deterministic_witness :
    processStream "1" [freshAssistant "1" 0]
        [[Line.frame (.chatToken "a")], [Line.frame .chatDone]] =
      processStream "1" [freshAssistant "1" 0]
        [[Line.frame (.chatToken "a"), Line.frame .chatDone]] :=
  c8_replay_deterministic "1" [freshAssistant "1" 0]
    [[Line.frame (.chatToken "a")], [Line.frame .chatDone]]
    [[Line.frame (.chatToken "a"), Line.frame .chatDone]]
    (by decide) (by decide)

/-- Claim C9.  A persisted chat history that fails to parse is caught:
the corrupted entry is removed, the session starts with an empty message
list, and in every case (absent, valid or corrupt history) the mount
effect completes with `initialLoadComplete = true` — it never throws out
of the startup path. -/
theorem c9_corrupt_history_recovery :
    initialLoad .corrupt = ⟨[], .absent, true⟩ ∧
    ∀ s : StoredHistory, (initialLoad s).initialLoadComplete = true := by
  refine ⟨rfl, ?_⟩
  intro s
  cases s <;> rfl

/-- Claim C10.  A well-formed frame whose `type` matches none of the
five handled values is ignored: applying it returns the message list
unchanged (every field of every message untouched), and deleting such a
frame from a batch does not change the batch's outcome. -/
theorem c10_unknown_type_ignored (msgs : List Message) (aid : String)
    (pre post : List Line) :
    applyData msgs aid .other = msgs ∧
    processChunk aid msgs (pre ++ Line.frame .other :: post) =
      processChunk aid msgs (pre ++ post) :=
  ⟨rfl, processChunk_skip aid (Line.frame .other) (fun _ => rfl) rfl
      pre post msgs⟩

end Cboe
